import Mathlib

/-!
Verification of the virtio-drivers top-level module (`src/virtio-drivers/src/lib.rs`)
and, for components whose source is not shipped (queue, transport), models written
from the specification.

`usize` values are modelled as `Nat`, with explicit `% 2^64` wherever the Rust
code could wrap, and explicit `size < 2^64` hypotheses where a claim quantifies
over `usize`.
-/

namespace VirtioDrivers

/-- The page size in bytes supported by the library (4 KiB).
From `pub const PAGE_SIZE: usize = 0x1000;`. -/
def PAGE_SIZE : Nat := 0x1000

/-- Number of bits of `usize` (64-bit target). -/
def USIZE_BITS : Nat := 64

/-- The error type of VirtIO drivers, from the `Error` enum in `lib.rs`. -/
inductive Error where
  /-- There are not enough descriptors available in the virtqueue, try again later. -/
  | QueueFull
  /-- The device is not ready. -/
  | NotReady
  /-- The device used a different descriptor chain to the one we were expecting. -/
  | WrongToken
  /-- The queue is already in use. -/
  | AlreadyUsed
  /-- Invalid parameter. -/
  | InvalidParam
  /-- Failed to alloc DMA memory. -/
  | DmaError
  /-- I/O Error. -/
  | IoError
  /-- The request was not supported by the device. -/
  | Unsupported
  /-- The config space advertised by the device is smaller than the driver expected. -/
  | ConfigSpaceTooSmall
  /-- The device does not have any config space, but the driver expects some. -/
  | ConfigSpaceMissing
deriving DecidableEq, Repr

/-- The type returned by driver methods: `pub type Result<T> = core::result::Result<T, Error>`. -/
abbrev Result (T : Type) := Except Error T

/-- The list of all variants of `Error`, in declaration order. -/
def Error.variants : List Error :=
  [.QueueFull, .NotReady, .WrongToken, .AlreadyUsed, .InvalidParam,
   .DmaError, .IoError, .Unsupported, .ConfigSpaceTooSmall, .ConfigSpaceMissing]

/-- `alloc::string::FromUtf8Error`: the bytes that failed UTF-8 decoding together
with the position up to which they were valid. Only its existence matters to the
conversion below, which discards its value (`_value`). -/
structure FromUtf8Error where
  bytes : List Nat
  valid_up_to : Nat
deriving DecidableEq, Repr

/-- `impl From<alloc::string::FromUtf8Error> for Error { fn from(_value) { Self::IoError } }`. -/
def Error.from_utf8_error (_value : FromUtf8Error) : Error := .IoError

/-- `fn align_up(size: usize) -> usize { (size + PAGE_SIZE) & !(PAGE_SIZE - 1) }`,
with release-mode wrapping addition on `usize`.  `!(PAGE_SIZE - 1)` on a 64-bit
`usize` is `2^64 - PAGE_SIZE`. -/
def align_up (size : Nat) : Nat :=
  ((size + PAGE_SIZE) % 2 ^ USIZE_BITS) &&& (2 ^ USIZE_BITS - PAGE_SIZE)

/-- `fn pages(size: usize) -> usize { size.div_ceil(PAGE_SIZE) }`.
Rust's `usize::div_ceil(rhs)` is `self / rhs`, plus one when `self % rhs > 0`. -/
def pages (size : Nat) : Nat :=
  if size % PAGE_SIZE > 0 then size / PAGE_SIZE + 1 else size / PAGE_SIZE

/-- Masking with the aligned-down mask `2^64 - 2^12` clears the low 12 bits:
for `x < 2^64`, `x &&& (2^64 - 2^12) = x / 2^12 * 2^12`. -/
lemma land_align_mask (x : Nat) (hx : x < 2 ^ 64) :
    x &&& (2 ^ 64 - 2 ^ 12) = x / 2 ^ 12 * 2 ^ 12 := by
  have hmask : (2 ^ 64 - 2 ^ 12 : Nat) = (2 ^ 52 - 1) <<< 12 := by
    rw [Nat.shiftLeft_eq]
    norm_num
  have hdiv : x / 2 ^ 12 * 2 ^ 12 = (x >>> 12) <<< 12 := by
    rw [Nat.shiftRight_eq_div_pow, Nat.shiftLeft_eq]
  rw [hmask, hdiv]
  apply Nat.eq_of_testBit_eq
  intro i
  rw [Nat.testBit_land, Nat.testBit_shiftLeft, Nat.testBit_shiftLeft,
    Nat.testBit_shiftRight]
  rcases Nat.lt_or_ge i 12 with h12 | h12
  · have : decide (12 ≤ i) = false := by simpa using Nat.not_le.mpr h12
    simp [this]
  · have h12' : decide (12 ≤ i) = true := by simpa using h12
    rcases Nat.lt_or_ge i 64 with h64 | h64
    · have hbit : (2 ^ 52 - 1 : Nat).testBit (i - 12) = true := by
        rw [Nat.testBit_two_pow_sub_one]
        simpa using by omega
      have hi : 12 + (i - 12) = i := by omega
      rw [h12', hbit, hi]
      simp
    · have hxbit : x.testBit i = false := by
        apply Nat.testBit_lt_two_pow
        exact lt_of_lt_of_le hx (Nat.pow_le_pow_right (by norm_num) h64)
      have hi : 12 + (i - 12) = i := by omega
      rw [h12', hi, hxbit]
      simp

/-! ## Claims about the shipped top-level module -/

/-- C4: for every `usize` byte count `size`, `pages size` is the ceiling of
`size / PAGE_SIZE`: the least `n` with `n * PAGE_SIZE ≥ size`; in particular
`pages 0 = 0`, and the function is total (no division by zero or overflow). -/
theorem pages_is_ceiling_div (size : Nat) (hsize : size < 2 ^ USIZE_BITS) :
    pages size = (size + PAGE_SIZE - 1) / PAGE_SIZE ∧
    size ≤ pages size * PAGE_SIZE ∧
    (∀ m : Nat, size ≤ m * PAGE_SIZE → pages size ≤ m) ∧
    pages 0 = 0 := by
  unfold pages PAGE_SIZE
  refine ⟨by split <;> omega, by split <;> omega, fun m hm => ?_, by norm_num⟩
  revert hm
  split <;> omega

/-- Witness for C4 at `size = 5000`. -/
theorem pages_is_ceiling_div_witness :
    pages 5000 = (5000 + PAGE_SIZE - 1) / PAGE_SIZE ∧
    5000 ≤ pages 5000 * PAGE_SIZE ∧
    (∀ m : Nat, 5000 ≤ m * PAGE_SIZE → pages 5000 ≤ m) ∧
    pages 0 = 0 :=
  pages_is_ceiling_div 5000 (by norm_num [USIZE_BITS])

/-- C5: whenever `size + PAGE_SIZE` does not overflow, `align_up size` is a
multiple of `PAGE_SIZE` with `size < align_up size ≤ size + PAGE_SIZE`; when
`size` is already page-aligned (including `size = 0`), the result is
`size + PAGE_SIZE`, not `size`. -/
theorem align_up_adds_page (size : Nat) (h : size + PAGE_SIZE < 2 ^ USIZE_BITS) :
    align_up size % PAGE_SIZE = 0 ∧
    size < align_up size ∧
    align_up size ≤ size + PAGE_SIZE ∧
    (size % PAGE_SIZE = 0 → align_up size = size + PAGE_SIZE) := by
  have h' : size + 4096 < 2 ^ 64 := by simpa [PAGE_SIZE, USIZE_BITS] using h
  have hland := land_align_mask (size + 4096) h'
  rw [show ((2 : Nat) ^ 12) = 4096 by norm_num] at hland
  have hval : align_up size = (size + 4096) / 4096 * 4096 := by
    unfold align_up PAGE_SIZE USIZE_BITS
    rw [Nat.mod_eq_of_lt h']
    exact hland
  rw [hval]
  unfold PAGE_SIZE
  refine ⟨by omega, by omega, by omega, by omega⟩

/-- Witness for C5 at `size = 8192` (already page-aligned). -/
theorem align_up_adds_page_witness :
    align_up 8192 % PAGE_SIZE = 0 ∧
    8192 < align_up 8192 ∧
    align_up 8192 ≤ 8192 + PAGE_SIZE ∧
    (8192 % PAGE_SIZE = 0 → align_up 8192 = 8192 + PAGE_SIZE) :=
  align_up_adds_page 8192 (by norm_num [USIZE_BITS, PAGE_SIZE])

/-- C8: `Error` is a closed enumeration of exactly the ten listed kinds: every
value of the error type carried by `Result` is one of the ten variants, the
variant list has length ten, and its entries are pairwise distinct. -/
theorem error_is_closed_ten_kinds :
    (∀ e : Error, e ∈ Error.variants) ∧
    Error.variants.length = 10 ∧
    Error.variants.Nodup := by
  refine ⟨fun e => ?_, rfl, by decide⟩
  cases e <;> simp [Error.variants]

/-- C9: converting any `FromUtf8Error` (malformed UTF-8 from the device) into
the library error type yields `IoError`, regardless of the failure's contents. -/
theorem from_utf8_error_is_io_error (v : FromUtf8Error) :
    Error.from_utf8_error v = Error.IoError := rfl

/-- Witness for C9 at a concrete malformed-UTF-8 failure. -/
theorem from_utf8_error_is_io_error_witness :
    Error.from_utf8_error (FromUtf8Error.mk [0xC3, 0x28] 0) = Error.IoError :=
  from_utf8_error_is_io_error (FromUtf8Error.mk [0xC3, 0x28] 0)

/-- C10: `PAGE_SIZE` is the compile-time constant 4096 (= 0x1000) bytes, and it
is the unit in which the `pages` helper sizes DMA allocations: `pages size`
pages always cover `size` bytes, with less than one page of slack. -/
theorem page_size_is_4096 :
    PAGE_SIZE = 4096 ∧ PAGE_SIZE = 0x1000 ∧
    (∀ size : Nat, size ≤ pages size * PAGE_SIZE ∧
      pages size * PAGE_SIZE < size + PAGE_SIZE) := by
  refine ⟨rfl, rfl, fun size => ?_⟩
  unfold pages PAGE_SIZE
  split <;> omega

/-! ## Virtqueue engine (spec model)

`queue.rs` is declared by `lib.rs` (`mod queue;`) but is not shipped under
`src/`; the definitions below are modelled from the specification's §3/§4.1. -/

/-- Modelled from the spec: the driver-side state of one split virtqueue
(`Queue` of the missing `queue.rs`).  `free` is the free-list of
descriptor-table indices, `inflight` the outstanding chains (head token with
every descriptor index of the chain, most recent first), `popped` the tokens
already reclaimed via `pop_used` whose head slot has not yet been reused, and
`avail_idx` / `last_used_idx` the two 16-bit ring counters. -/
structure Queue where
  queue_size : Nat
  free : List Nat
  inflight : List (Nat × List Nat)
  popped : List Nat
  avail_idx : Nat
  last_used_idx : Nat
deriving DecidableEq, Repr

/-- Modelled from the spec: the queue state right after a successful
`Queue::new` — all `queue_size` descriptors on the free list, no chain in
flight, both indices zero. -/
def Queue.new (size : Nat) : Queue :=
  { queue_size := size, free := List.range size, inflight := [], popped := [],
    avail_idx := 0, last_used_idx := 0 }

/-- Modelled from the spec: allocate `needed` descriptor slots from the free
list one at a time (`taken` holds the slots taken so far, most recent first);
on shortage the partial allocation is rolled back onto the free list. -/
def allocDescs : Nat → List Nat → List Nat → Option (List Nat) × List Nat
  | 0, taken, free => (some taken.reverse, free)
  | _ + 1, taken, [] => (none, taken.reverse ++ [])
  | n + 1, taken, d :: free => allocDescs n (d :: taken) free

/-- Modelled from the spec: `Queue::add(readable, writable)` — builds one
descriptor chain out of `readable.length + writable.length` free slots (the
buffers themselves are irrelevant to the claims, only their number matters),
fails with `QueueFull` when too few free descriptors remain (rolling the
partial allocation back), and on success records the chain as in flight under
its head-index token and advances `avail_idx` modulo 65536. -/
def Queue.add (q : Queue) (readable writable : List Nat) : Result Nat × Queue :=
  if readable.length + writable.length = 0 then (.error .InvalidParam, q)
  else
    match allocDescs (readable.length + writable.length) [] q.free with
    | (none, free') => (.error .QueueFull, { q with free := free' })
    | (some descs, free') =>
      match descs with
      | [] => (.error .InvalidParam, q)
      | head :: _ =>
        (.ok head,
         { q with
           free := free'
           inflight := (head, descs) :: q.inflight
           popped := q.popped.filter (fun t => t != head)
           avail_idx := (q.avail_idx + 1) % 65536 })

/-- Modelled from the spec: search the outstanding chains for head token `id`;
on a hit return the chain's descriptor indices together with the remaining
outstanding chains. -/
def popChain (id : Nat) : List (Nat × List Nat) → Option (List Nat × List (Nat × List Nat))
  | [] => none
  | (tok, descs) :: rest =>
    if tok = id then some (descs, rest)
    else
      match popChain id rest with
      | none => none
      | some (ds, rest') => some (ds, (tok, descs) :: rest')

/-- Modelled from the spec: `Queue::pop_used` — the device's current `used.idx`
and the next used-ring entry `(descriptor-head index, written length)` are
inputs written by the device.  Returns `none` when no new completion is
pending; otherwise validates the device-supplied head index against the
outstanding chains: on a match the chain's descriptors return to the free
list, `last_used_idx` advances modulo 65536, and the token plus written length
are returned; an already-popped token yields `AlreadyUsed`; anything else
yields `WrongToken`. -/
def Queue.pop_used (q : Queue) (used_idx : Nat) (entry : Nat × Nat) :
    Result (Option (Nat × Nat)) × Queue :=
  if q.last_used_idx % 65536 = used_idx % 65536 then (.ok none, q)
  else
    match popChain entry.1 q.inflight with
    | some (descs, rest) =>
      (.ok (some (entry.1, entry.2)),
       { q with
         free := q.free ++ descs
         inflight := rest
         popped := entry.1 :: q.popped
         last_used_idx := (q.last_used_idx + 1) % 65536 })
    | none =>
      if entry.1 ∈ q.popped then (.error .AlreadyUsed, q)
      else (.error .WrongToken, q)

/-- Modelled from the spec: the queue states reachable through any sequence of
`add` and `pop_used` calls (successful or failed, with arbitrary device
inputs) from a fresh queue.  The size bound 32768 is the classic
split-virtqueue maximum imposed by the 16-bit queue-size field. -/
inductive Queue.Reachable : Queue → Prop where
  | new (size : Nat) (hsize : size ≤ 32768) : Queue.Reachable (Queue.new size)
  | add (q : Queue) (readable writable : List Nat) :
      Queue.Reachable q → Queue.Reachable (q.add readable writable).2
  | pop (q : Queue) (used_idx : Nat) (entry : Nat × Nat) :
      Queue.Reachable q → Queue.Reachable (q.pop_used used_idx entry).2

/-- Total number of descriptor slots held by a list of in-flight chains. -/
def chainDescs (l : List (Nat × List Nat)) : Nat :=
  (l.map (fun c => c.2.length)).sum

/-- The queue invariant maintained by `add` and `pop_used`. -/
structure QueueInv (q : Queue) : Prop where
  size_le : q.queue_size ≤ 32768
  used_lt : q.last_used_idx < 65536
  avail_eq : q.avail_idx = (q.last_used_idx + q.inflight.length) % 65536
  descs_eq : q.free.length + chainDescs q.inflight = q.queue_size
  chains_nonempty : ∀ c ∈ q.inflight, c.2 ≠ []

/-- `allocDescs` characterized: success takes the first `needed` free slots,
failure restores the free list exactly. -/
lemma allocDescs_spec (n : Nat) : ∀ taken free : List Nat,
    allocDescs n taken free =
      if n ≤ free.length then (some (taken.reverse ++ free.take n), free.drop n)
      else (none, taken.reverse ++ free) := by
  induction n with
  | zero => intro taken free; simp [allocDescs]
  | succ n ih =>
    intro taken free
    cases free with
    | nil => simp [allocDescs]
    | cons d free =>
      rw [allocDescs, ih]
      by_cases hle : n ≤ free.length
      · rw [if_pos hle, if_pos (by simpa using Nat.succ_le_succ hle)]
        simp
      · rw [if_neg hle, if_neg (by simpa using fun hh => hle (Nat.le_of_succ_le_succ hh))]
        simp

@[simp] lemma chainDescs_nil : chainDescs [] = 0 := rfl

@[simp] lemma chainDescs_cons (c : Nat × List Nat) (l : List (Nat × List Nat)) :
    chainDescs (c :: l) = c.2.length + chainDescs l := by
  simp [chainDescs]

/-- A list of nonempty chains holds at least one descriptor per chain. -/
lemma length_le_chainDescs (l : List (Nat × List Nat)) (h : ∀ c ∈ l, c.2 ≠ []) :
    l.length ≤ chainDescs l := by
  induction l with
  | nil => simp
  | cons c l ih =>
    have hc : 1 ≤ c.2.length := by
      have hne := h c (by simp)
      cases hcc : c.2 with
      | nil => exact absurd hcc hne
      | cons a t => simp [hcc]
    have hl := ih (fun d hd => h d (by simp [hd]))
    simp only [List.length_cons, chainDescs_cons]
    omega

/-- A successful `popChain` removes exactly the matching chain. -/
lemma popChain_some (id : Nat) (l : List (Nat × List Nat)) (ds : List Nat)
    (rest : List (Nat × List Nat)) (h : popChain id l = some (ds, rest)) :
    (id, ds) ∈ l ∧ l.length = rest.length + 1 ∧
    chainDescs l = ds.length + chainDescs rest ∧ ∀ c ∈ rest, c ∈ l := by
  induction l generalizing ds rest with
  | nil => simp [popChain] at h
  | cons c l ih =>
    obtain ⟨tok, descs⟩ := c
    rw [popChain] at h
    by_cases htok : tok = id
    · rw [if_pos htok] at h
      simp only [Option.some.injEq, Prod.mk.injEq] at h
      obtain ⟨rfl, rfl⟩ := h
      subst htok
      refine ⟨by simp, by simp, by simp, fun c hc => by simp [hc]⟩
    · rw [if_neg htok] at h
      cases hpc : popChain id l with
      | none => rw [hpc] at h; simp at h
      | some p =>
        obtain ⟨ds', rest'⟩ := p
        rw [hpc] at h
        simp only [Option.some.injEq, Prod.mk.injEq] at h
        obtain ⟨rfl, rfl⟩ := h
        obtain ⟨h1, h2, h3, h4⟩ := ih ds' rest' hpc
        refine ⟨by simp [h1], by simp [h2], ?_, ?_⟩
        · simp only [chainDescs_cons, h3]
          omega
        · intro c hc
          rcases List.mem_cons.mp hc with hh | hh
          · simp [hh]
          · simp [h4 c hh]

/-- `popChain` fails exactly when no outstanding chain has head token `id`. -/
lemma popChain_eq_none (id : Nat) (l : List (Nat × List Nat)) :
    popChain id l = none ↔ ∀ c ∈ l, c.1 ≠ id := by
  induction l with
  | nil => simp [popChain]
  | cons c l ih =>
    obtain ⟨tok, descs⟩ := c
    rw [popChain]
    by_cases htok : tok = id
    · rw [if_pos htok]
      simp [htok]
    · rw [if_neg htok]
      cases hpc : popChain id l with
      | none =>
        simp only [List.mem_cons]
        constructor
        · intro _ c hc
          rcases hc with hh | hh
          · subst hh; simpa using htok
          · exact (ih.mp hpc) c hh
        · intro _; trivial
      | some p =>
        obtain ⟨ds', rest'⟩ := p
        have hne : ¬ (∀ c ∈ l, c.1 ≠ id) := by
          intro hall
          rw [ih.mpr hall] at hpc
          exact Option.noConfusion hpc
        simp only [List.mem_cons]
        constructor
        · intro hcontra
          exact Option.noConfusion hcontra
        · intro hall
          exact absurd (fun c hc => hall c (Or.inr hc)) hne

/-- A fresh queue satisfies the invariant. -/
lemma queueInv_new (size : Nat) (hsize : size ≤ 32768) : QueueInv (Queue.new size) := by
  constructor <;> simp [Queue.new, hsize]

/-- `add` preserves the invariant, whether it succeeds or fails. -/
lemma queueInv_add (q : Queue) (r w : List Nat) (h : QueueInv q) :
    QueueInv (q.add r w).2 := by
  unfold Queue.add
  by_cases h0 : r.length + w.length = 0
  · rw [if_pos h0]
    exact h
  · rw [if_neg h0, allocDescs_spec]
    by_cases hle : r.length + w.length ≤ q.free.length
    · rw [if_pos hle]
      have htlen : (q.free.take (r.length + w.length)).length = r.length + w.length := by
        simp [List.length_take]
        omega
      cases htake : q.free.take (r.length + w.length) with
      | nil =>
        exfalso
        rw [htake] at htlen
        simp at htlen
        omega
      | cons head tail =>
        rw [htake] at htlen
        simp only [List.reverse_nil, List.nil_append, htake]
        constructor
        · exact h.size_le
        · exact h.used_lt
        · have := h.avail_eq
          simp only [List.length_cons]
          omega
        · have := h.descs_eq
          simp only [chainDescs_cons, List.length_drop, List.length_cons]
          simp only [List.length_cons] at htlen
          omega
        · intro c hc
          rcases List.mem_cons.mp hc with hh | hh
          · rw [hh]
            simp
          · exact h.chains_nonempty c hh
    · rw [if_neg hle]
      simp only [List.reverse_nil, List.nil_append]
      exact h

/-- `pop_used` preserves the invariant, whether it succeeds or fails. -/
lemma queueInv_pop (q : Queue) (u : Nat) (e : Nat × Nat) (h : QueueInv q) :
    QueueInv (q.pop_used u e).2 := by
  unfold Queue.pop_used
  by_cases heq : q.last_used_idx % 65536 = u % 65536
  · rw [if_pos heq]
    exact h
  · rw [if_neg heq]
    cases hpc : popChain e.1 q.inflight with
    | none =>
      by_cases hmem : e.1 ∈ q.popped
      · rw [if_pos hmem]
        exact h
      · rw [if_neg hmem]
        exact h
    | some p =>
      obtain ⟨ds, rest⟩ := p
      obtain ⟨hmem, hlen, hsum, hsub⟩ := popChain_some e.1 q.inflight ds rest hpc
      have hds : ds ≠ [] := h.chains_nonempty (e.1, ds) hmem
      have hds1 : 1 ≤ ds.length := by
        cases hdd : ds with
        | nil => exact absurd hdd hds
        | cons a t => simp [hdd]
      constructor
      · exact h.size_le
      · simp only []
        omega
      · have := h.avail_eq
        simp only []
        omega
      · have := h.descs_eq
        simp only [List.length_append]
        omega
      · intro c hc
        exact h.chains_nonempty c (hsub c hc)

/-- Every reachable queue state satisfies the invariant. -/
lemma queueInv_reachable (q : Queue) (h : q.Reachable) : QueueInv q := by
  induction h with
  | new size hsize => exact queueInv_new size hsize
  | add q r w _ ih => exact queueInv_add q r w ih
  | pop q u e _ ih => exact queueInv_pop q u e ih

/-- C1: in every reachable queue state, `avail_idx − last_used_idx` computed
modulo 65536 equals the number of descriptor chains in flight (added via `add`
but not yet reclaimed via `pop_used`), and that count never exceeds
`queue_size`; reachability quantifies over all call sequences, so this holds in
particular across any number of 16-bit index wraparounds. -/
theorem in_flight_count_invariant (q : Queue) (h : q.Reachable) :
    (q.avail_idx + 65536 - q.last_used_idx) % 65536 = q.inflight.length ∧
    q.inflight.length ≤ q.queue_size := by
  have inv := queueInv_reachable q h
  have hlen := length_le_chainDescs q.inflight inv.chains_nonempty
  have h1 := inv.avail_eq
  have h2 := inv.used_lt
  have h3 := inv.descs_eq
  have h4 := inv.size_le
  constructor
  · omega
  · omega

/-- Witness for C1 at the fresh queue of size 8. -/
theorem in_flight_count_invariant_witness :
    ((Queue.new 8).avail_idx + 65536 - (Queue.new 8).last_used_idx) % 65536 =
      (Queue.new 8).inflight.length ∧
    (Queue.new 8).inflight.length ≤ (Queue.new 8).queue_size :=
  in_flight_count_invariant (Queue.new 8) (Queue.Reachable.new 8 (by norm_num))

/-- C2: when too few free descriptors remain for the requested chain, `add`
fails with `QueueFull` and leaves the queue state — in particular the
free-list size and membership — exactly as it was (the partial allocation is
rolled back). -/
theorem add_queue_full_rolls_back (q : Queue) (readable writable : List Nat)
    (h : q.free.length < readable.length + writable.length) :
    (q.add readable writable).1 = .error .QueueFull ∧
    (q.add readable writable).2 = q ∧
    (q.add readable writable).2.free = q.free := by
  unfold Queue.add
  rw [if_neg (by omega), allocDescs_spec, if_neg (by omega)]
  simp

/-- Witness for C2: a queue with 2 free descriptors rejects a 3-buffer chain. -/
theorem add_queue_full_rolls_back_witness :
    ((Queue.new 2).add [10, 20, 30] []).1 = .error .QueueFull ∧
    ((Queue.new 2).add [10, 20, 30] []).2 = Queue.new 2 ∧
    ((Queue.new 2).add [10, 20, 30] []).2.free = (Queue.new 2).free :=
  add_queue_full_rolls_back (Queue.new 2) [10, 20, 30] [] (by simp [Queue.new])

/-- C3: when a new completion is pending, `pop_used` validates the
device-supplied descriptor-head index against the outstanding chains: a match
returns exactly that token with the device-written byte count (regardless of
submission order), an already-popped token yields `AlreadyUsed`, and any other
index yields `WrongToken`. -/
theorem pop_used_validates_token (q : Queue) (used_idx id len : Nat)
    (hnew : q.last_used_idx % 65536 ≠ used_idx % 65536) :
    ((∃ descs, (id, descs) ∈ q.inflight) →
      (q.pop_used used_idx (id, len)).1 = .ok (some (id, len))) ∧
    ((∀ c ∈ q.inflight, c.1 ≠ id) → id ∈ q.popped →
      (q.pop_used used_idx (id, len)).1 = .error .AlreadyUsed) ∧
    ((∀ c ∈ q.inflight, c.1 ≠ id) → id ∉ q.popped →
      (q.pop_used used_idx (id, len)).1 = .error .WrongToken) := by
  unfold Queue.pop_used
  rw [if_neg hnew]
  refine ⟨?_, ?_, ?_⟩
  · rintro ⟨descs, hdescs⟩
    cases hpc : popChain id q.inflight with
    | none =>
      exfalso
      exact (popChain_eq_none id q.inflight).mp hpc (id, descs) hdescs rfl
    | some p =>
      obtain ⟨ds, rest⟩ := p
      simp
  · intro hall hmem
    rw [(popChain_eq_none id q.inflight).mpr hall]
    rw [if_pos hmem]
  · intro hall hmem
    rw [(popChain_eq_none id q.inflight).mpr hall]
    rw [if_neg hmem]

/-- Witness for C3: chains 3 and 1 outstanding, token 9 already popped; the
device completes chain 3 (submitted after chain 1) first. -/
theorem pop_used_validates_token_witness :
    ((∃ descs, ((3 : Nat), descs) ∈ (Queue.mk 8 [4, 5] [(1, [1, 2]), (3, [3, 0])] [9] 2 0).inflight) →
      ((Queue.mk 8 [4, 5] [(1, [1, 2]), (3, [3, 0])] [9] 2 0).pop_used 1 (3, 100)).1 =
        .ok (some (3, 100))) ∧
    ((∀ c ∈ (Queue.mk 8 [4, 5] [(1, [1, 2]), (3, [3, 0])] [9] 2 0).inflight, c.1 ≠ 3) →
      (3 : Nat) ∈ (Queue.mk 8 [4, 5] [(1, [1, 2]), (3, [3, 0])] [9] 2 0).popped →
      ((Queue.mk 8 [4, 5] [(1, [1, 2]), (3, [3, 0])] [9] 2 0).pop_used 1 (3, 100)).1 =
        .error .AlreadyUsed) ∧
    ((∀ c ∈ (Queue.mk 8 [4, 5] [(1, [1, 2]), (3, [3, 0])] [9] 2 0).inflight, c.1 ≠ 3) →
      (3 : Nat) ∉ (Queue.mk 8 [4, 5] [(1, [1, 2]), (3, [3, 0])] [9] 2 0).popped →
      ((Queue.mk 8 [4, 5] [(1, [1, 2]), (3, [3, 0])] [9] 2 0).pop_used 1 (3, 100)).1 =
        .error .WrongToken) :=
  pop_used_validates_token (Queue.mk 8 [4, 5] [(1, [1, 2]), (3, [3, 0])] [9] 2 0)
    1 3 100 (by decide)

/-! ## Transport (spec model)

`transport.rs` is declared by `lib.rs` (`pub mod transport;`) but is not
shipped under `src/`; the definitions below are modelled from the
specification's §4.2. -/

/-- Device status bit: the guest has noticed the device. -/
def STATUS_ACKNOWLEDGE : Nat := 1

/-- Device status bit: the guest knows how to drive the device. -/
def STATUS_DRIVER : Nat := 2

/-- Device status bit: feature negotiation is complete. -/
def STATUS_FEATURES_OK : Nat := 8

/-- Modelled from the spec: the device side of feature negotiation — its
advertised feature bitset and whether it accepts a proposed subset (that is,
whether it leaves `FEATURES_OK` set when the status is re-read). -/
structure MockDevice where
  device_features : Nat
  accept_features : Nat → Bool

/-- Outcome of `negotiate`: the driver's result, the feature bitset written to
the device, and the status observed on the final status re-read. -/
structure NegotiateOutcome where
  result : Result Nat
  written_features : Option Nat
  final_status : Nat

/-- Modelled from the spec: the status register value the driver observes when
it re-reads status after requesting `FEATURES_OK` — the device keeps the bit
only when it accepts the proposed feature subset. -/
def observed_status (dev : MockDevice) (accepted : Nat) : Nat :=
  if dev.accept_features accepted then
    STATUS_ACKNOWLEDGE ||| STATUS_DRIVER ||| STATUS_FEATURES_OK
  else
    STATUS_ACKNOWLEDGE ||| STATUS_DRIVER

/-- Modelled from the spec: `Transport::negotiate(wanted)` — advances status
`Acknowledge` → `Driver`, writes the intersection of `wanted` with the
device-advertised features, requests `FEATURES_OK`, then re-reads the status
register and fails with `Unsupported` if the device did not keep
`FEATURES_OK`. -/
def negotiate (dev : MockDevice) (wanted : Nat) : NegotiateOutcome :=
  if observed_status dev (wanted &&& dev.device_features) &&& STATUS_FEATURES_OK ≠ 0 then
    { result := .ok (wanted &&& dev.device_features)
      written_features := some (wanted &&& dev.device_features)
      final_status := observed_status dev (wanted &&& dev.device_features) }
  else
    { result := .error .Unsupported
      written_features := some (wanted &&& dev.device_features)
      final_status := observed_status dev (wanted &&& dev.device_features) }

/-- C6: `negotiate` writes exactly `wanted ∩ device_features` to the device,
and when the device does not accept that subset it returns `Unsupported` with
the observed status advanced no further than `Driver` — in particular with
`FEATURES_OK` not set. -/
theorem negotiate_intersects_and_fails_before_features_ok
    (dev : MockDevice) (wanted : Nat) :
    (negotiate dev wanted).written_features = some (wanted &&& dev.device_features) ∧
    (dev.accept_features (wanted &&& dev.device_features) = false →
      (negotiate dev wanted).result = .error .Unsupported ∧
      (negotiate dev wanted).final_status = STATUS_ACKNOWLEDGE ||| STATUS_DRIVER ∧
      (negotiate dev wanted).final_status &&& STATUS_FEATURES_OK = 0) := by
  by_cases hacc : dev.accept_features (wanted &&& dev.device_features)
  · constructor
    · simp [negotiate, observed_status, hacc, STATUS_ACKNOWLEDGE, STATUS_DRIVER,
        STATUS_FEATURES_OK]
    · intro hfalse
      rw [hacc] at hfalse
      exact Bool.noConfusion hfalse
  · have hobs : observed_status dev (wanted &&& dev.device_features) =
        STATUS_ACKNOWLEDGE ||| STATUS_DRIVER := by
      simp [observed_status, hacc]
    have hneg : negotiate dev wanted =
        { result := .error .Unsupported
          written_features := some (wanted &&& dev.device_features)
          final_status := STATUS_ACKNOWLEDGE ||| STATUS_DRIVER } := by
      unfold negotiate
      rw [hobs, if_neg (by decide)]
    rw [hneg]
    exact ⟨rfl, fun _ => ⟨rfl, rfl,
      show (STATUS_ACKNOWLEDGE ||| STATUS_DRIVER) &&& STATUS_FEATURES_OK = 0 by decide⟩⟩

/-- Witness for C6: a device advertising features `0b1111` that rejects every
proposed subset. -/
theorem negotiate_intersects_and_fails_before_features_ok_witness :
    (negotiate (MockDevice.mk 15 (fun _ => false)) 11).written_features =
      some (11 &&& (MockDevice.mk 15 (fun _ => false)).device_features) ∧
    ((MockDevice.mk 15 (fun _ => false)).accept_features
        (11 &&& (MockDevice.mk 15 (fun _ => false)).device_features) = false →
      (negotiate (MockDevice.mk 15 (fun _ => false)) 11).result = .error .Unsupported ∧
      (negotiate (MockDevice.mk 15 (fun _ => false)) 11).final_status =
        STATUS_ACKNOWLEDGE ||| STATUS_DRIVER ∧
      (negotiate (MockDevice.mk 15 (fun _ => false)) 11).final_status &&&
        STATUS_FEATURES_OK = 0) :=
  negotiate_intersects_and_fails_before_features_ok (MockDevice.mk 15 (fun _ => false)) 11

/-- Modelled from the spec: the device's config space over time — at instant
`t` the generation counter reads `gen t` and the two config fields read
`field1 t` and `field2 t`; the device may update the config (bumping `gen`)
between any two driver reads. -/
structure ConfigTrace where
  gen : Nat → Nat
  field1 : Nat → Nat
  field2 : Nat → Nat

/-- Modelled from the spec: `Transport::read_config` — read the generation,
read the field(s) at strictly later instants, re-read the generation, and
retry the whole read while the two generation reads disagree.  `fuel` bounds
the retries to keep the loop total. -/
def read_config : ConfigTrace → Nat → Nat → Option ((Nat × Nat) × Nat)
  | _, 0, _ => none
  | tr, fuel + 1, t =>
    if tr.gen t = tr.gen (t + 3) then
      some ((tr.field1 (t + 1), tr.field2 (t + 2)), tr.gen t)
    else
      read_config tr fuel (t + 4)

/-- C7: whenever `read_config` returns, every field of the returned value was
read at an instant whose generation equals the generation both guard reads
agreed on — the result is never assembled from fields belonging to two
different generations.  `hmono` states that the device only ever increments
its generation counter. -/
theorem read_config_no_torn_read (tr : ConfigTrace)
    (hmono : ∀ a b : Nat, a ≤ b → tr.gen a ≤ tr.gen b)
    (fuel t v1 v2 g : Nat)
    (h : read_config tr fuel t = some ((v1, v2), g)) :
    ∃ t1 t2 : Nat, v1 = tr.field1 t1 ∧ v2 = tr.field2 t2 ∧
      tr.gen t1 = g ∧ tr.gen t2 = g := by
  induction fuel generalizing t with
  | zero => simp [read_config] at h
  | succ fuel ih =>
    rw [read_config] at h
    by_cases hg : tr.gen t = tr.gen (t + 3)
    · rw [if_pos hg] at h
      simp only [Option.some.injEq, Prod.mk.injEq] at h
      obtain ⟨⟨h1, h2⟩, h3⟩ := h
      have ha1 := hmono t (t + 1) (by omega)
      have ha2 := hmono (t + 1) (t + 3) (by omega)
      have hb1 := hmono t (t + 2) (by omega)
      have hb2 := hmono (t + 2) (t + 3) (by omega)
      exact ⟨t + 1, t + 2, h1.symm, h2.symm, by omega, by omega⟩
    · rw [if_neg hg] at h
      exact ih (t + 4) h

/-- Witness for C7: a stable trace of generation 5 read with one unit of fuel
from instant 0. -/
theorem read_config_no_torn_read_witness :
    ∃ t1 t2 : Nat,
      (1 : Nat) = (ConfigTrace.mk (fun _ => 5) (fun t => t) (fun t => 2 * t)).field1 t1 ∧
      (4 : Nat) = (ConfigTrace.mk (fun _ => 5) (fun t => t) (fun t => 2 * t)).field2 t2 ∧
      (ConfigTrace.mk (fun _ => 5) (fun t => t) (fun t => 2 * t)).gen t1 = 5 ∧
      (ConfigTrace.mk (fun _ => 5) (fun t => t) (fun t => 2 * t)).gen t2 = 5 :=
  read_config_no_torn_read (ConfigTrace.mk (fun _ => 5) (fun t => t) (fun t => 2 * t))
    (fun _ _ _ => Nat.le_refl 5) 1 0 1 4 5 rfl

end VirtioDrivers
